import Mathlib

/-!
Shallow embedding of the sanitization module of a photo-gallery web application
(file src/lib/sanitize.ts) together with its in-memory rate limiter, CSP header
builder and file-upload validator, and proofs of the specified properties.

JavaScript strings are modelled as Lean strings (lists of characters); the
string-returning sanitizers are translated over List Char, character by
character, following each regular-expression replacement of the source.
-/

set_option maxRecDepth 4096

/-- Characters that are written via their code point to keep the development
free of quote-like literals: double quote (34), apostrophe (39),
backslash (92) and backtick (96). -/
def quoteC : Char := Char.ofNat 34

def aposC : Char := Char.ofNat 39

def backslashC : Char := Char.ofNat 92

def backtickC : Char := Char.ofNat 96

/-- A JavaScript value as seen by the sanitizers: the source guards every
function with the test `!input or typeof input !== string`, so the model only
needs to distinguish null, undefined, strings, and any other non-string
value. -/
inductive JSVal where
  | jsNull : JSVal
  | jsUndef : JSVal
  | jsStr : String → JSVal
  | jsOther : JSVal
deriving DecidableEq, Repr

/-- The guard `if (!input or typeof input !== string) return empty` shared by
all sanitizers: a value passes only when it is a string and, because the empty
string is falsy in JavaScript, nonempty. -/
def toStr? : JSVal → Option String
  | .jsStr s => if s.data.isEmpty then none else some s
  | _ => none

/-- Whether the value is a string at all (the inputs the edge-case policy of
the spec is about are exactly the non-strings). -/
def isJsString : JSVal → Bool
  | .jsStr _ => true
  | _ => false

/-- The WhiteSpace and LineTerminator code points recognised by the JavaScript
functions String.prototype.trim and the regular-expression class backslash-s:
tab, LF, VT, FF, CR, space, NBSP, Ogham space mark, the en-quad .. hair-space
range, LS, PS, narrow NBSP, medium mathematical space, ideographic space and
BOM. -/
def wsChars : List Char :=
  [Char.ofNat 9, Char.ofNat 10, Char.ofNat 11, Char.ofNat 12, Char.ofNat 13,
   Char.ofNat 32, Char.ofNat 160, Char.ofNat 5760,
   Char.ofNat 8192, Char.ofNat 8193, Char.ofNat 8194, Char.ofNat 8195,
   Char.ofNat 8196, Char.ofNat 8197, Char.ofNat 8198, Char.ofNat 8199,
   Char.ofNat 8200, Char.ofNat 8201, Char.ofNat 8202,
   Char.ofNat 8232, Char.ofNat 8233, Char.ofNat 8239, Char.ofNat 8287,
   Char.ofNat 12288, Char.ofNat 65279]

/-- JavaScript whitespace test. -/
def jsWs (c : Char) : Bool := wsChars.contains c

/-- String.prototype.trim: drop whitespace from both ends. -/
def trimList (l : List Char) : List Char :=
  ((l.dropWhile jsWs).reverse.dropWhile jsWs).reverse

/-- The control characters removed by sanitizeText and sanitizeSearchQuery:
the regular-expression class x00-x08, x0B, x0C, x0E-x1F, x7F. -/
def isCtrlText (c : Char) : Bool :=
  (c.toNat ≤ 8) || (c.toNat == 11) || (c.toNat == 12) ||
  (14 ≤ c.toNat && c.toNat ≤ 31) || (c.toNat == 127)

/-- One global regular-expression replacement of a single character by a
replacement string, as in input.replace of the source. -/
def replaceAll (t : Char) (r : List Char) : List Char → List Char
  | [] => []
  | c :: cs => (if c = t then r else [c]) ++ replaceAll t r cs

/-- The six HTML-entity escapes of sanitizeText, applied in source order:
ampersand first, then lt, gt, double quote, apostrophe, forward slash. -/
def escapeChain (l : List Char) : List Char :=
  replaceAll (Char.ofNat 47) ("&#x2F;".data)
    (replaceAll aposC ("&#x27;".data)
      (replaceAll quoteC ("&quot;".data)
        (replaceAll (Char.ofNat 62) ("&gt;".data)
          (replaceAll (Char.ofNat 60) ("&lt;".data)
            (replaceAll (Char.ofNat 38) ("&amp;".data) l)))))

/-- The six characters sanitizeText escapes: ampersand, lt, gt, double quote,
apostrophe, forward slash. -/
def escapeSet : List Char :=
  [Char.ofNat 38, Char.ofNat 60, Char.ofNat 62, quoteC, aposC, Char.ofNat 47]

/-- Core of sanitizeText on a (nonempty) string: trim, strip control
characters, escape HTML entities in fixed order, truncate to 500
characters. -/
def sanitizeTextStr (s : String) : String :=
  String.mk ((escapeChain ((trimList s.data).filter (fun c => !isCtrlText c))).take 500)

/-- sanitizeText from src/lib/sanitize.ts. -/
def sanitizeText (v : JSVal) : String :=
  match toStr? v with
  | none => ""
  | some s => sanitizeTextStr s

/-- Helper for the server-side tag-stripping regular expression of
sanitizeHtml: given the characters after an opening angle bracket, return the
characters after the first closing angle bracket, or none when the tag never
closes (in which case the regular expression does not match). -/
def afterGt : List Char → Option (List Char)
  | [] => none
  | c :: r => if c = Char.ofNat 62 then some r else afterGt r

/-- The server-side fallback of sanitizeHtml: the global replacement of the
regular expression lt [^gt]* gt by the empty string. An unmatched opening
bracket is kept, since the pattern then fails at that position. -/
def stripTags : List Char → List Char
  | [] => []
  | c :: rest =>
    if c = Char.ofNat 60 then
      match h : afterGt rest with
      | some rest2 => stripTags rest2
      | none => c :: stripTags rest
    else c :: stripTags rest
termination_by l => l.length
decreasing_by
  · have key : ∀ (l r : List Char), afterGt l = some r → r.length < l.length := by
      intro l
      induction l with
      | nil => intro r hr; simp [afterGt] at hr
      | cons a as ih =>
        intro r hr
        by_cases ha : a = Char.ofNat 62
        · simp [afterGt, ha] at hr
          subst hr
          simp
        · simp [afterGt, ha] at hr
          exact Nat.lt_trans (ih r hr) (by simp)
    exact Nat.lt_trans (key _ _ h) (by simp)
  · simp
  · simp

/-- sanitizeHtml from src/lib/sanitize.ts, in the server-side branch (no
document context): strip all HTML tags. The client-side branch delegates to
the external DOMPurify library and is outside this development; the shared
input guard is the part the specified edge-case policy concerns. -/
def sanitizeHtml (v : JSVal) : String :=
  match toStr? v with
  | none => ""
  | some s => String.mk (stripTags s.data)

/-- The characters stripped by sanitizeSearchQuery: lt, gt, double quote,
apostrophe, ampersand, and the control characters of isCtrlText. -/
def searchBad (c : Char) : Bool :=
  [Char.ofNat 60, Char.ofNat 62, quoteC, aposC, Char.ofNat 38].contains c || isCtrlText c

/-- Core of sanitizeSearchQuery on a (nonempty) string: trim, strip the
dangerous characters, truncate to 100 characters. -/
def sanitizeSearchQueryStr (s : String) : String :=
  String.mk (((trimList s.data).filter (fun c => !searchBad c)).take 100)

/-- sanitizeSearchQuery from src/lib/sanitize.ts. -/
def sanitizeSearchQuery (v : JSVal) : String :=
  match toStr? v with
  | none => ""
  | some s => sanitizeSearchQueryStr s

/-- The global replacement of the two-character pattern dot-dot by the empty
string: a single left-to-right pass removing non-overlapping occurrences. -/
def removeDotDot : List Char → List Char
  | [] => []
  | [c] => [c]
  | c1 :: c2 :: rest =>
    if c1 = Char.ofNat 46 && c2 = Char.ofNat 46 then removeDotDot rest
    else c1 :: removeDotDot (c2 :: rest)

/-- Path separators removed by sanitizeFileName: forward slash and
backslash. -/
def isSep (c : Char) : Bool := c = Char.ofNat 47 || c = backslashC

/-- The characters illegal in file names per sanitizeFileName: the class
lt gt colon double-quote pipe question-mark asterisk and x00-x1F. -/
def fileIllegal (c : Char) : Bool :=
  [Char.ofNat 60, Char.ofNat 62, Char.ofNat 58, quoteC, Char.ofNat 124,
   Char.ofNat 63, Char.ofNat 42].contains c || c.toNat ≤ 31

/-- The global replacement of every maximal run of whitespace by a single
underscore, with a flag recording whether the previous character was part of a
run already replaced. -/
def collapseWsGo (prevWs : Bool) : List Char → List Char
  | [] => []
  | c :: rest =>
    if jsWs c then
      (if prevWs then collapseWsGo true rest else Char.ofNat 95 :: collapseWsGo true rest)
    else c :: collapseWsGo false rest

/-- The replacement of whitespace runs by single underscores in
sanitizeFileName. -/
def collapseWs (l : List Char) : List Char := collapseWsGo false l

/-- Core of sanitizeFileName on a (nonempty) string: trim, remove dot-dot
substrings, remove path separators, remove illegal characters, replace
whitespace runs by underscores, truncate to 255 characters. -/
def sanitizeFileNameStr (s : String) : String :=
  String.mk ((collapseWs (((removeDotDot (trimList s.data)).filter
    (fun c => !isSep c)).filter (fun c => !fileIllegal c))).take 255)

/-- sanitizeFileName from src/lib/sanitize.ts. -/
def sanitizeFileName (v : JSVal) : String :=
  match toStr? v with
  | none => ""
  | some s => sanitizeFileNameStr s

/-- String.prototype.split with the one-character separator comma: cut the
character list at every comma, keeping empty pieces. -/
def splitComma : List Char → List (List Char)
  | [] => [[]]
  | c :: cs =>
    if c = Char.ofNat 44 then [] :: splitComma cs
    else
      match splitComma cs with
      | [] => [[c]]
      | p :: ps => (c :: p) :: ps

/-- sanitizeTags from src/lib/sanitize.ts: split on comma, sanitize each part
with sanitizeText, keep the nonempty parts of length at most 50, and cap the
list at 20 tags. -/
def sanitizeTags (v : JSVal) : List String :=
  match toStr? v with
  | none => []
  | some s =>
    (((splitComma s.data).map (fun t => sanitizeText (.jsStr (String.mk t)))).filter
      (fun t => t.length > 0 && t.length ≤ 50)).take 20

/-- The URL pattern caret (https?://|/): the trimmed input must begin with
http://, https:// or a forward slash. -/
def urlOk (l : List Char) : Bool :=
  List.isPrefixOf ("http://".data) l || List.isPrefixOf ("https://".data) l ||
  List.isPrefixOf ([Char.ofNat 47]) l

/-- The characters stripped from an accepted URL: lt, gt, double quote,
apostrophe, backtick. -/
def urlBad (c : Char) : Bool :=
  [Char.ofNat 60, Char.ofNat 62, quoteC, aposC, backtickC].contains c

/-- Core of sanitizeUrl on a (nonempty) string: trim, reject anything not
matching the URL pattern, then strip the dangerous characters. -/
def sanitizeUrlStr (s : String) : String :=
  let t := trimList s.data
  if urlOk t then String.mk (t.filter (fun c => !urlBad c)) else ""

/-- sanitizeUrl from src/lib/sanitize.ts. -/
def sanitizeUrl (v : JSVal) : String :=
  match toStr? v with
  | none => ""
  | some s => sanitizeUrlStr s

/-- The CSP source token self, written with its surrounding apostrophes. -/
def selfSrc : String := aposC.toString ++ "self" ++ aposC.toString

/-- The CSP source token none, written with its surrounding apostrophes. -/
def noneSrc : String := aposC.toString ++ "none" ++ aposC.toString

/-- CSP_DIRECTIVES from src/lib/sanitize.ts: the fixed directive-to-sources
object, in its insertion (iteration) order. -/
def CSP_DIRECTIVES : List (String × List String) :=
  [("default-src", [selfSrc]),
   ("script-src", [selfSrc, aposC.toString ++ "unsafe-eval" ++ aposC.toString,
     aposC.toString ++ "unsafe-inline" ++ aposC.toString, "https://vercel.live"]),
   ("style-src", [selfSrc, aposC.toString ++ "unsafe-inline" ++ aposC.toString,
     "https://fonts.googleapis.com"]),
   ("font-src", [selfSrc, "https://fonts.gstatic.com", "data:"]),
   ("img-src", [selfSrc, "data:", "blob:", "https:"]),
   ("media-src", [selfSrc, "blob:", "data:"]),
   ("object-src", [noneSrc]),
   ("frame-src", [noneSrc]),
   ("base-uri", [selfSrc]),
   ("form-action", [selfSrc]),
   ("frame-ancestors", [noneSrc]),
   ("upgrade-insecure-requests", [])]

/-- buildCSPHeader from src/lib/sanitize.ts: map each directive to its clause
(the bare name when the source list is empty, otherwise the name followed by
the space-joined sources) and join the clauses with a semicolon and a
space. -/
def buildCSPHeader : String :=
  String.intercalate "; " (CSP_DIRECTIVES.map (fun p =>
    if p.2.isEmpty then p.1 else p.1 ++ " " ++ String.intercalate " " p.2))

/-- Number of occurrences of the pattern as a contiguous subsequence of the
list, counting one per starting position. -/
def countSub (pat : List Char) : List Char → Nat
  | [] => if pat.isEmpty then 1 else 0
  | c :: cs => (if List.isPrefixOf pat (c :: cs) then 1 else 0) + countSub pat cs

/-- Whether the pattern occurs as a contiguous subsequence of the list. -/
def hasSub (pat l : List Char) : Bool := countSub pat l > 0

/-- One entry of the rate-limiter map: the attempt count and the absolute
time at which the window resets. -/
structure RLEntry where
  count : Nat
  resetTime : Nat
deriving DecidableEq, Repr

/-- The private attempts map of the RateLimiter class, modelled as an
association list in insertion order (JavaScript Map iteration order). -/
abbrev RLMap := List (String × RLEntry)

/-- Map.prototype.get: the value of the first (and only) binding of the
key. -/
def mapGet (m : RLMap) (k : String) : Option RLEntry :=
  (m.find? (fun p => p.1 = k)).map (fun p => p.2)

/-- Map.prototype.set: replace the value in place when the key is bound,
otherwise append a new binding. In-place mutation of a stored entry object
(the count increment of the source) is the same operation. -/
def mapSet (m : RLMap) (k : String) (v : RLEntry) : RLMap :=
  match m with
  | [] => [(k, v)]
  | (k2, v2) :: rest => if k2 = k then (k, v) :: rest else (k2, v2) :: mapSet rest k v

/-- Map.prototype.delete: remove the binding of the key, when present. -/
def mapDelete (m : RLMap) (k : String) : RLMap :=
  m.eraseP (fun p => p.1 = k)

namespace RateLimiter

/-- RateLimiter.isAllowed from src/lib/sanitize.ts, with the current time
passed explicitly in place of Date.now(): returns the decision and the map
after the call. A missing or expired entry is replaced by count 1 with a
fresh window and the request allowed; an unexpired entry at or above
maxAttempts denies without change; otherwise the count is incremented and the
request allowed. -/
def isAllowed (m : RLMap) (identifier : String) (maxAttempts windowMs now : Nat) :
    Bool × RLMap :=
  match mapGet m identifier with
  | none => (true, mapSet m identifier ⟨1, now + windowMs⟩)
  | some e =>
    if e.resetTime < now then
      (true, mapSet m identifier ⟨1, now + windowMs⟩)
    else if e.count ≥ maxAttempts then
      (false, m)
    else
      (true, mapSet m identifier ⟨e.count + 1, e.resetTime⟩)

/-- RateLimiter.reset from src/lib/sanitize.ts: drop the identifier from the
map. -/
def reset (m : RLMap) (identifier : String) : RLMap := mapDelete m identifier

end RateLimiter

/-- One external call to the rate limiter: isAllowed at a given time, or
reset. The maxAttempts and windowMs arguments are fixed across the run, as in
a caller using constant limits. -/
inductive RLOp where
  | allow : String → Nat → RLOp
  | rst : String → RLOp
deriving DecidableEq, Repr

/-- Apply one call to the map. -/
def applyOp (maxAttempts windowMs : Nat) (m : RLMap) : RLOp → RLMap
  | .allow id now => (RateLimiter.isAllowed m id maxAttempts windowMs now).2
  | .rst id => RateLimiter.reset m id

/-- Run a sequence of calls from a starting map. -/
def runOps (maxAttempts windowMs : Nat) : List RLOp → RLMap → RLMap
  | [], m => m
  | op :: ops, m => runOps maxAttempts windowMs ops (applyOp maxAttempts windowMs m op)

/-- Every entry of the map has a count between 1 and maxAttempts. -/
def countInv (maxAttempts : Nat) (m : RLMap) : Prop :=
  ∀ p ∈ m, 1 ≤ p.2.count ∧ p.2.count ≤ maxAttempts

/-- The fields of a browser File object consulted by validateFileUpload. -/
structure JSFile where
  name : String
  size : Nat
  type : String
deriving DecidableEq, Repr

/-- The result record of validateFileUpload. -/
structure UploadResult where
  isValid : Bool
  sanitizedName : String
  errors : List String
deriving DecidableEq, Repr

/-- The MIME types accepted by validateFileUpload. -/
def allowedTypes : List String :=
  ["image/jpeg", "image/jpg", "image/png", "image/gif", "image/webp"]

/-- The three error messages of validateFileUpload, in push order. -/
def sizeErr : String := "File size exceeds 10MB limit"

def typeErr : String := "Invalid file type. Only JPEG, PNG, GIF, and WebP are allowed"

def nameErr : String := "Invalid file name"

/-- validateFileUpload from src/lib/sanitize.ts: run the size check, the MIME
type check and the sanitized-name check in order, pushing one message per
failed check, and report validity as emptiness of the error list together
with the sanitized name. -/
def validateFileUpload (file : JSFile) : UploadResult :=
  let errors1 := if file.size > 10 * 1024 * 1024 then [sizeErr] else []
  let errors2 := if !(allowedTypes.contains file.type) then [typeErr] else []
  let sanitizedName := sanitizeFileName (.jsStr file.name)
  let errors3 := if sanitizedName.data.isEmpty then [nameErr] else []
  let errors := errors1 ++ errors2 ++ errors3
  { isValid := errors.isEmpty, sanitizedName := sanitizedName, errors := errors }

/-! Helper lemmas about dropWhile, trim and the escape chain. -/

theorem head_dropWhile_false {α : Type} {p : α → Bool} {l : List α} {c : α}
    (h : (l.dropWhile p).head? = some c) : p c = false := by
  induction l with
  | nil => simp [List.dropWhile] at h
  | cons a as ih =>
    rw [List.dropWhile_cons] at h
    by_cases ha : p a
    · rw [if_pos ha] at h
      exact ih h
    · rw [if_neg ha] at h
      rw [List.head?_cons, Option.some_inj] at h
      subst h
      simpa using ha

theorem dropWhile_self_of_head {α : Type} {p : α → Bool} {l : List α}
    (h : ∀ c, l.head? = some c → p c = false) : l.dropWhile p = l := by
  cases l with
  | nil => rfl
  | cons a as =>
    rw [List.dropWhile_cons, if_neg]
    simp [h a rfl]

theorem getLast?_of_suffix {α : Type} {l1 l2 : List α} (h : l1 <:+ l2)
    (hne : l1 ≠ []) : l2.getLast? = l1.getLast? := by
  obtain ⟨t, rfl⟩ := h
  rw [List.getLast?_append]
  cases hl : l1.getLast? with
  | none => exact absurd (List.getLast?_eq_none_iff.mp hl) hne
  | some a => simp [Option.or]

theorem mem_trimList {c : Char} {l : List Char} (h : c ∈ trimList l) : c ∈ l := by
  unfold trimList at h
  rw [List.mem_reverse] at h
  have h2 := List.Sublist.mem h (List.dropWhile_suffix jsWs).sublist
  rw [List.mem_reverse] at h2
  exact List.Sublist.mem h2 (List.dropWhile_suffix jsWs).sublist

theorem trimList_idem (l : List Char) : trimList (trimList l) = trimList l := by
  set u := l.dropWhile jsWs with hu
  set v := u.reverse.dropWhile jsWs with hv
  have hA : v.reverse.dropWhile jsWs = v.reverse := by
    apply dropWhile_self_of_head
    intro c hc
    rw [List.head?_reverse] at hc
    by_cases hvnil : v = []
    · rw [hvnil] at hc
      simp at hc
    · have h2 : u.reverse.getLast? = some c :=
        (getLast?_of_suffix (List.dropWhile_suffix jsWs) hvnil).trans hc
      rw [List.getLast?_reverse] at h2
      exact head_dropWhile_false h2
  have hB : v.dropWhile jsWs = v := by
    apply dropWhile_self_of_head
    intro c hc
    rw [hv] at hc
    exact head_dropWhile_false hc
  show ((v.reverse.dropWhile jsWs).reverse.dropWhile jsWs).reverse = v.reverse
  rw [hA, List.reverse_reverse, hB]

theorem replaceAll_id {t : Char} {r l : List Char} (h : t ∉ l) :
    replaceAll t r l = l := by
  induction l with
  | nil => rfl
  | cons c cs ih =>
    have h1 : ¬ c = t := fun e => h (by rw [← e]; exact List.mem_cons_self c cs)
    have h2 : t ∉ cs := fun hm => h (List.mem_cons_of_mem c hm)
    rw [replaceAll, if_neg h1, ih h2]
    rfl

theorem escapeChain_id {l : List Char} (h : ∀ c ∈ l, c ∉ escapeSet) :
    escapeChain l = l := by
  have n38 : Char.ofNat 38 ∉ l := fun hm => h _ hm (by decide)
  have n60 : Char.ofNat 60 ∉ l := fun hm => h _ hm (by decide)
  have n62 : Char.ofNat 62 ∉ l := fun hm => h _ hm (by decide)
  have n34 : quoteC ∉ l := fun hm => h _ hm (by decide)
  have n39 : aposC ∉ l := fun hm => h _ hm (by decide)
  have n47 : Char.ofNat 47 ∉ l := fun hm => h _ hm (by decide)
  rw [escapeChain, replaceAll_id n38, replaceAll_id n60, replaceAll_id n62,
      replaceAll_id n34, replaceAll_id n39, replaceAll_id n47]

/-- C1 counterexample: sanitizeText is not idempotent. On the one-character
string ampersand the sanitized form is five characters long, far below the
500-character cap, yet re-sanitizing re-escapes the ampersand of the entity
and yields a different string. -/
theorem sanitizeText_not_idem :
    (sanitizeText (.jsStr (sanitizeText (.jsStr (String.mk [Char.ofNat 38]))))
        = sanitizeText (.jsStr (String.mk [Char.ofNat 38])) → False)
    ∧ (sanitizeText (.jsStr (String.mk [Char.ofNat 38]))).length < 500
    ∧ sanitizeText (.jsStr (String.mk [Char.ofNat 38])) = "&amp;"
    ∧ sanitizeText (.jsStr "&amp;") = "&amp;amp;" := by
  refine ⟨fun hcontra => ?_, by decide, by decide, by decide⟩
  revert hcontra
  decide

/-- C1 (amended): sanitizeText is idempotent on inputs that contain no
control character and none of the six escaped characters, whenever the
sanitized form is shorter than the 500-character cap; in general it is not
idempotent, because every escape introduces an ampersand that a second
application escapes again. -/
theorem sanitizeText_idem (s : String)
    (hclean : ∀ c ∈ s.data, isCtrlText c = false ∧ c ∉ escapeSet)
    (hlen : (sanitizeText (.jsStr s)).length < 500) :
    sanitizeText (.jsStr (sanitizeText (.jsStr s))) = sanitizeText (.jsStr s) := by
  by_cases hempty : s.data.isEmpty
  · have h1 : sanitizeText (.jsStr s) = "" := by
      simp [sanitizeText, toStr?, hempty]
    rw [h1]
    decide
  · have h1 : sanitizeText (.jsStr s) = sanitizeTextStr s := by
      simp [sanitizeText, toStr?, hempty]
    set t := trimList s.data with ht
    have htsub : ∀ c ∈ t, c ∈ s.data := fun c hc => mem_trimList (ht ▸ hc)
    have hfilter : t.filter (fun c => !isCtrlText c) = t :=
      List.filter_eq_self.mpr (fun a ha => by simp [(hclean a (htsub a ha)).1])
    have hescape : escapeChain t = t :=
      escapeChain_id (fun c hc => (hclean c (htsub c hc)).2)
    have h2 : sanitizeTextStr s = String.mk (t.take 500) := by
      rw [sanitizeTextStr, ← ht, hfilter, hescape]
    have hlen2 : t.length ≤ 500 := by
      by_cases hc : t.length ≤ 500
      · exact hc
      · exfalso
        rw [h1, h2] at hlen
        have hmk : (String.mk (t.take 500)).length = (t.take 500).length := rfl
        rw [hmk, List.length_take] at hlen
        omega
    have htake : t.take 500 = t := List.take_of_length_le hlen2
    have hlen3 : t.length < 500 := by
      rw [h1, h2, htake] at hlen
      exact hlen
    have hfix : sanitizeText (.jsStr s) = String.mk t := by rw [h1, h2, htake]
    rw [hfix]
    by_cases htnil : t = []
    · rw [htnil]
      decide
    · have hmkdata : (String.mk t).data = t := rfl
      have hne : (String.mk t).data.isEmpty = false := by
        rw [hmkdata]
        cases hi : t.isEmpty
        · rfl
        · exact absurd (List.isEmpty_iff.mp hi) htnil
      have h3 : sanitizeText (.jsStr (String.mk t)) = sanitizeTextStr (String.mk t) := by
        simp [sanitizeText, toStr?, hne]
      have htrim : trimList t = t := by rw [ht]; exact trimList_idem s.data
      rw [h3, sanitizeTextStr, hmkdata, htrim, hfilter, hescape, htake]

/-- C1 witness: the amended idempotence applied to a concrete clean string. -/
theorem sanitizeText_idem_witness :
    sanitizeText (.jsStr (sanitizeText (.jsStr "  my photo  ")))
      = sanitizeText (.jsStr "  my photo  ") :=
  sanitizeText_idem "  my photo  " (by decide) (by decide)

/-- C3: on null, undefined, or any other non-string input, every sanitizer
returns the empty value of its result type and raises no error (all model
functions are total). -/
theorem sanitizers_empty_on_nonstring (v : JSVal) (h : isJsString v = false) :
    sanitizeHtml v = "" ∧ sanitizeText v = "" ∧ sanitizeSearchQuery v = ""
    ∧ sanitizeFileName v = "" ∧ sanitizeTags v = [] ∧ sanitizeUrl v = "" := by
  cases v with
  | jsStr s => simp [isJsString] at h
  | jsNull => exact ⟨rfl, rfl, rfl, rfl, rfl, rfl⟩
  | jsUndef => exact ⟨rfl, rfl, rfl, rfl, rfl, rfl⟩
  | jsOther => exact ⟨rfl, rfl, rfl, rfl, rfl, rfl⟩

/-- C3 witness: the edge-case policy at the null input. -/
theorem sanitizers_empty_on_nonstring_witness :
    sanitizeHtml .jsNull = "" ∧ sanitizeText .jsNull = ""
    ∧ sanitizeSearchQuery .jsNull = "" ∧ sanitizeFileName .jsNull = ""
    ∧ sanitizeTags .jsNull = [] ∧ sanitizeUrl .jsNull = "" :=
  sanitizers_empty_on_nonstring .jsNull rfl

theorem mem_collapseWsGo {c : Char} :
    ∀ (b : Bool) (l : List Char), c ∈ collapseWsGo b l → c = Char.ofNat 95 ∨ c ∈ l := by
  intro b l
  induction l generalizing b with
  | nil => intro h; simp [collapseWsGo] at h
  | cons a as ih =>
    intro h
    rw [collapseWsGo] at h
    by_cases ha : jsWs a
    · rw [if_pos ha] at h
      cases b with
      | true =>
        rcases ih true h with h2 | h2
        · exact Or.inl h2
        · exact Or.inr (List.mem_cons_of_mem a h2)
      | false =>
        rcases List.mem_cons.mp h with h2 | h2
        · exact Or.inl h2
        · rcases ih true h2 with h3 | h3
          · exact Or.inl h3
          · exact Or.inr (List.mem_cons_of_mem a h3)
    · rw [if_neg ha] at h
      rcases List.mem_cons.mp h with h2 | h2
      · exact Or.inr (h2 ▸ List.mem_cons_self a as)
      · rcases ih false h2 with h3 | h3
        · exact Or.inl h3
        · exact Or.inr (List.mem_cons_of_mem a h3)

/-- C4 counterexample: the dot-dot removal runs before the separator removal,
so removing the slash of the input dot-slash-dot re-forms a dot-dot pair in
the output: the claim that no output contains a dot-dot substring is false. -/
theorem sanitizeFileName_dotdot_cex :
    sanitizeFileName (.jsStr (String.mk [Char.ofNat 46, Char.ofNat 47, Char.ofNat 46]))
      = String.mk [Char.ofNat 46, Char.ofNat 46]
    ∧ hasSub [Char.ofNat 46, Char.ofNat 46]
        (sanitizeFileName (.jsStr (String.mk [Char.ofNat 46, Char.ofNat 47, Char.ofNat 46]))).data
      = true := by
  exact ⟨by decide, by decide⟩

/-- C4 (amended): for every input the output of sanitizeFileName contains no
path separator (forward slash or backslash); the output can still contain a
dot-dot substring re-formed by separator removal (dot-slash-dot maps to
dot-dot), but on the specific path-traversal input dot-dot-slash repeated the
output etcpasswd contains neither a separator nor a dot-dot substring. -/
theorem sanitizeFileName_no_separator :
    (∀ (v : JSVal) (c : Char), isSep c = true → c ∉ (sanitizeFileName v).data)
    ∧ sanitizeFileName (.jsStr "../../etc/passwd") = "etcpasswd"
    ∧ hasSub [Char.ofNat 46, Char.ofNat 46]
        (sanitizeFileName (.jsStr "../../etc/passwd")).data = false
    ∧ hasSub [Char.ofNat 47] (sanitizeFileName (.jsStr "../../etc/passwd")).data = false := by
  refine ⟨?_, by decide, by decide, by decide⟩
  intro v c hsep hmem
  cases v with
  | jsNull => simp [sanitizeFileName, toStr?] at hmem
  | jsUndef => simp [sanitizeFileName, toStr?] at hmem
  | jsOther => simp [sanitizeFileName, toStr?] at hmem
  | jsStr s =>
    by_cases hempty : s.data.isEmpty
    · simp [sanitizeFileName, toStr?, hempty] at hmem
    · rw [show sanitizeFileName (.jsStr s) = sanitizeFileNameStr s by
        simp [sanitizeFileName, toStr?, hempty]] at hmem
      rw [sanitizeFileNameStr] at hmem
      have h1 : c ∈ collapseWs (((removeDotDot (trimList s.data)).filter
          (fun c => !isSep c)).filter (fun c => !fileIllegal c)) :=
        List.Sublist.mem hmem (List.take_sublist 255 _)
      rcases mem_collapseWsGo false _ h1 with h2 | h2
      · rw [h2] at hsep
        exact absurd hsep (by decide)
      · have h3 := (List.mem_filter.mp h2).1
        have h4 := (List.mem_filter.mp h3).2
        rw [hsep] at h4
        simp at h4

/-- C5: validateFileUpload runs all three checks without short-circuiting,
each failed check contributes exactly its one message, the error count is the
number of failed checks, validity is exactly emptiness of the error list, and
the sanitized name is returned alongside. -/
theorem validateFileUpload_spec (file : JSFile) :
    ((validateFileUpload file).isValid = true ↔ (validateFileUpload file).errors = [])
    ∧ (validateFileUpload file).sanitizedName = sanitizeFileName (.jsStr file.name)
    ∧ (sizeErr ∈ (validateFileUpload file).errors ↔ file.size > 10 * 1024 * 1024)
    ∧ (typeErr ∈ (validateFileUpload file).errors ↔ allowedTypes.contains file.type = false)
    ∧ (nameErr ∈ (validateFileUpload file).errors ↔
        (sanitizeFileName (.jsStr file.name)).data.isEmpty = true)
    ∧ (validateFileUpload file).errors.length =
        (if file.size > 10 * 1024 * 1024 then 1 else 0) +
        (if allowedTypes.contains file.type then 0 else 1) +
        (if (sanitizeFileName (.jsStr file.name)).data.isEmpty then 1 else 0) := by
  have d1 : ¬ sizeErr = typeErr := by decide
  have d2 : ¬ sizeErr = nameErr := by decide
  have d3 : ¬ typeErr = nameErr := by decide
  have e1 : ¬ typeErr = sizeErr := by decide
  have e2 : ¬ nameErr = sizeErr := by decide
  have e3 : ¬ nameErr = typeErr := by decide
  by_cases h1 : file.size > 10 * 1024 * 1024 <;>
    by_cases h2 : file.type ∈ allowedTypes <;>
      by_cases h3 : (sanitizeFileName (.jsStr file.name)).data.isEmpty <;>
        simp [validateFileUpload, h1, h2, h3, d1, d2, d3, e1, e2, e3]

/-- C5 witness: a valid upload and an invalid one, through the theorem. -/
theorem validateFileUpload_spec_witness :
    (validateFileUpload ⟨"photo.png", 100, "image/png"⟩).isValid = true
    ∧ (sizeErr ∈ (validateFileUpload ⟨"photo.png", 20971520, "image/png"⟩).errors) :=
  ⟨((validateFileUpload_spec ⟨"photo.png", 100, "image/png"⟩).1).mpr (by decide),
   ((validateFileUpload_spec ⟨"photo.png", 20971520, "image/png"⟩).2.2.1).mpr (by decide)⟩

/-- C6: buildCSPHeader serializes the fixed directive set in iteration order,
joining the clauses with semicolon-space and no trailing separator (the
expected full header is spelled out), emitting the bare directive name for
the empty-source directive, and the output contains exactly one occurrence of
the default-src self clause. -/
theorem buildCSPHeader_spec :
    buildCSPHeader =
      "default-src " ++ selfSrc
      ++ "; script-src " ++ selfSrc ++ " " ++ aposC.toString ++ "unsafe-eval"
        ++ aposC.toString ++ " " ++ aposC.toString ++ "unsafe-inline" ++ aposC.toString
        ++ " https://vercel.live"
      ++ "; style-src " ++ selfSrc ++ " " ++ aposC.toString ++ "unsafe-inline"
        ++ aposC.toString ++ " https://fonts.googleapis.com"
      ++ "; font-src " ++ selfSrc ++ " https://fonts.gstatic.com data:"
      ++ "; img-src " ++ selfSrc ++ " data: blob: https:"
      ++ "; media-src " ++ selfSrc ++ " blob: data:"
      ++ "; object-src " ++ noneSrc
      ++ "; frame-src " ++ noneSrc
      ++ "; base-uri " ++ selfSrc
      ++ "; form-action " ++ selfSrc
      ++ "; frame-ancestors " ++ noneSrc
      ++ "; upgrade-insecure-requests"
    ∧ countSub ("default-src " ++ selfSrc).data (buildCSPHeader.data) = 1
    ∧ List.isPrefixOf ("; ".data.reverse) (buildCSPHeader.data.reverse) = false := by
  exact ⟨by decide, by decide, by decide⟩

/-- C7: sanitizeUrl rejects every trimmed input outside the allow-list
pattern (returning the empty string) and returns the trimmed value stripped
of the five dangerous characters otherwise; with the three specified
examples. -/
theorem sanitizeUrl_spec :
    (∀ s : String, urlOk (trimList s.data) = false → sanitizeUrl (.jsStr s) = "")
    ∧ (∀ s : String, urlOk (trimList s.data) = true →
        sanitizeUrl (.jsStr s) = String.mk ((trimList s.data).filter (fun c => !urlBad c)))
    ∧ sanitizeUrl (.jsStr "javascript:alert(1)") = ""
    ∧ sanitizeUrl (.jsStr "/gallery/42") = "/gallery/42"
    ∧ sanitizeUrl (.jsStr ("https://example.com/x" ++ quoteC.toString ++ "y"))
        = "https://example.com/xy" := by
  refine ⟨?_, ?_, by decide, by decide, by decide⟩
  · intro s h
    by_cases hempty : s.data.isEmpty
    · simp [sanitizeUrl, toStr?, hempty]
    · simp only [sanitizeUrl, toStr?, hempty, Bool.false_eq_true, if_false]
      rw [sanitizeUrlStr]
      simp [h]
  · intro s h
    by_cases hempty : s.data.isEmpty
    · exfalso
      rw [List.isEmpty_iff.mp hempty] at h
      exact absurd h (by decide)
    · simp only [sanitizeUrl, toStr?, hempty, Bool.false_eq_true, if_false]
      rw [sanitizeUrlStr]
      simp [h]

/-- C7 witness: the rejection branch and the acceptance branch at concrete
inputs, through the theorem. -/
theorem sanitizeUrl_spec_witness :
    sanitizeUrl (.jsStr "ftp://host/file") = ""
    ∧ sanitizeUrl (.jsStr " /a ")
        = String.mk ((trimList " /a ".data).filter (fun c => !urlBad c)) :=
  ⟨sanitizeUrl_spec.1 "ftp://host/file" (by decide),
   sanitizeUrl_spec.2.1 " /a " (by decide)⟩

/-- C8: sanitizeTags returns at most 20 tags, every returned tag is nonempty
and at most 50 characters long, the returned list is an order-preserving
selection (sublist) of the sanitized comma-separated parts, and duplicates are
not removed, as on the input a,b,b,c. -/
theorem sanitizeTags_spec :
    (∀ v : JSVal, (sanitizeTags v).length ≤ 20)
    ∧ (∀ v : JSVal, ∀ t ∈ sanitizeTags v, 0 < t.length ∧ t.length ≤ 50)
    ∧ (∀ s : String, (sanitizeTags (.jsStr s)).Sublist
        ((splitComma s.data).map (fun p => sanitizeText (.jsStr (String.mk p)))))
    ∧ sanitizeTags (.jsStr "a,b,b,c") = ["a", "b", "b", "c"] := by
  refine ⟨?_, ?_, ?_, by decide⟩
  · intro v
    rw [sanitizeTags]
    cases toStr? v with
    | none => simp
    | some s => exact List.length_take_le 20 _
  · intro v t ht
    rw [sanitizeTags] at ht
    rcases hv : toStr? v with _ | s
    · rw [hv] at ht
      simp at ht
    · rw [hv] at ht
      have h1 : t ∈ (((splitComma s.data).map
          (fun p => sanitizeText (.jsStr (String.mk p)))).filter
            (fun t => t.length > 0 && t.length ≤ 50)) :=
        List.Sublist.mem ht (List.take_sublist 20 _)
      have h2 := (List.mem_filter.mp h1).2
      simp at h2
      exact ⟨h2.1, h2.2⟩
  · intro s
    rw [sanitizeTags]
    by_cases hempty : s.data.isEmpty
    · have hnone : toStr? (JSVal.jsStr s) = none := by simp [toStr?, hempty]
      rw [hnone]
      simp
    · have hsome : toStr? (JSVal.jsStr s) = some s := by simp [toStr?, hempty]
      rw [hsome]
      exact ((List.take_sublist 20 _).trans (List.filter_sublist _))

/-- C8 witness: the per-tag bounds at a concrete input, through the
theorem. -/
theorem sanitizeTags_spec_witness :
    0 < "a".length ∧ "a".length ≤ 50 :=
  sanitizeTags_spec.2.1 (.jsStr "a,b") "a" (by decide)

theorem isAllowed_eq_none {m : RLMap} {idf : String} {ma w now : Nat}
    (h : mapGet m idf = none) :
    RateLimiter.isAllowed m idf ma w now = (true, mapSet m idf ⟨1, now + w⟩) := by
  rw [RateLimiter.isAllowed, h]

theorem isAllowed_eq_expired {m : RLMap} {idf : String} {ma w now : Nat}
    {e : RLEntry} (h : mapGet m idf = some e) (h2 : e.resetTime < now) :
    RateLimiter.isAllowed m idf ma w now = (true, mapSet m idf ⟨1, now + w⟩) := by
  rw [RateLimiter.isAllowed, h]
  simp [h2]

theorem isAllowed_eq_deny {m : RLMap} {idf : String} {ma w now : Nat}
    {e : RLEntry} (h : mapGet m idf = some e) (h2 : ¬ e.resetTime < now)
    (h3 : e.count ≥ ma) :
    RateLimiter.isAllowed m idf ma w now = (false, m) := by
  rw [RateLimiter.isAllowed, h]
  simp [h2, h3]

theorem isAllowed_eq_incr {m : RLMap} {idf : String} {ma w now : Nat}
    {e : RLEntry} (h : mapGet m idf = some e) (h2 : ¬ e.resetTime < now)
    (h3 : e.count < ma) :
    RateLimiter.isAllowed m idf ma w now
      = (true, mapSet m idf ⟨e.count + 1, e.resetTime⟩) := by
  rw [RateLimiter.isAllowed, h]
  simp [h2, h3, Nat.not_le.mpr h3]

/-- C2: isAllowed is a fixed-window counter. Missing or expired entries are
replaced by a fresh window with count 1 and the call allowed; an unexpired
entry at or above maxAttempts is denied without change; otherwise the count
is incremented and the call allowed. With maxAttempts 2 and windowMs 1000,
three calls inside one window return true, true, false, and a call after the
window returns true again. -/
theorem isAllowed_spec :
    (∀ (m : RLMap) (idf : String) (ma w now : Nat), mapGet m idf = none →
        RateLimiter.isAllowed m idf ma w now = (true, mapSet m idf ⟨1, now + w⟩))
    ∧ (∀ (m : RLMap) (idf : String) (ma w now : Nat) (e : RLEntry),
        mapGet m idf = some e → e.resetTime < now →
        RateLimiter.isAllowed m idf ma w now = (true, mapSet m idf ⟨1, now + w⟩))
    ∧ (∀ (m : RLMap) (idf : String) (ma w now : Nat) (e : RLEntry),
        mapGet m idf = some e → ¬ e.resetTime < now → e.count ≥ ma →
        RateLimiter.isAllowed m idf ma w now = (false, m))
    ∧ (∀ (m : RLMap) (idf : String) (ma w now : Nat) (e : RLEntry),
        mapGet m idf = some e → ¬ e.resetTime < now → e.count < ma →
        RateLimiter.isAllowed m idf ma w now
          = (true, mapSet m idf ⟨e.count + 1, e.resetTime⟩))
    ∧ ((RateLimiter.isAllowed [] "user1" 2 1000 0).1 = true
       ∧ (RateLimiter.isAllowed (RateLimiter.isAllowed [] "user1" 2 1000 0).2
            "user1" 2 1000 300).1 = true
       ∧ (RateLimiter.isAllowed (RateLimiter.isAllowed
            (RateLimiter.isAllowed [] "user1" 2 1000 0).2 "user1" 2 1000 300).2
            "user1" 2 1000 900).1 = false
       ∧ (RateLimiter.isAllowed (RateLimiter.isAllowed (RateLimiter.isAllowed
            (RateLimiter.isAllowed [] "user1" 2 1000 0).2 "user1" 2 1000 300).2
            "user1" 2 1000 900).2 "user1" 2 1000 1500).1 = true) := by
  refine ⟨?_, ?_, ?_, ?_, by decide⟩
  · intro m idf ma w now h
    rw [RateLimiter.isAllowed, h]
  · intro m idf ma w now e h h2
    rw [RateLimiter.isAllowed, h]
    simp [h2]
  · intro m idf ma w now e h h2 h3
    rw [RateLimiter.isAllowed, h]
    simp [h2, h3]
  · intro m idf ma w now e h h2 h3
    rw [RateLimiter.isAllowed, h]
    simp [h2, h3, Nat.not_le.mpr h3]

/-- C2 witness: the fresh-entry branch at a concrete input, through the
theorem. -/
theorem isAllowed_spec_witness :
    RateLimiter.isAllowed [] "u" 3 100 5 = (true, mapSet [] "u" ⟨1, 105⟩) :=
  isAllowed_spec.1 [] "u" 3 100 5 rfl

/-- C9: a denied call (unexpired entry with count at or above maxAttempts)
returns false and leaves the whole map unchanged, hence the denied identifier
and every other identifier keep their exact entries. -/
theorem isAllowed_deny_frame (m : RLMap) (idf : String) (ma w now : Nat)
    (e : RLEntry) (hget : mapGet m idf = some e) (hwin : ¬ e.resetTime < now)
    (hcap : e.count ≥ ma) :
    RateLimiter.isAllowed m idf ma w now = (false, m) := by
  rw [RateLimiter.isAllowed, hget]
  simp [hwin, hcap]

/-- C9 witness: a denial at a concrete two-identifier map, through the
theorem. -/
theorem isAllowed_deny_frame_witness :
    RateLimiter.isAllowed [("a", ⟨2, 100⟩), ("b", ⟨1, 100⟩)] "a" 2 1000 50
      = (false, [("a", ⟨2, 100⟩), ("b", ⟨1, 100⟩)]) :=
  isAllowed_deny_frame [("a", ⟨2, 100⟩), ("b", ⟨1, 100⟩)] "a" 2 1000 50
    ⟨2, 100⟩ rfl (by decide) (by decide)

theorem mem_mapSet {m : RLMap} {k : String} {v : RLEntry} {p : String × RLEntry}
    (h : p ∈ mapSet m k v) : p = (k, v) ∨ p ∈ m := by
  induction m with
  | nil =>
    rw [mapSet] at h
    rcases List.mem_cons.mp h with h2 | h2
    · exact Or.inl h2
    · simp at h2
  | cons q rest ih =>
    rw [mapSet] at h
    by_cases hk : q.1 = k
    · rw [if_pos hk] at h
      rcases List.mem_cons.mp h with h2 | h2
      · exact Or.inl h2
      · exact Or.inr (List.mem_cons_of_mem q h2)
    · rw [if_neg hk] at h
      rcases List.mem_cons.mp h with h2 | h2
      · exact Or.inr (h2 ▸ List.mem_cons_self q rest)
      · rcases ih h2 with h3 | h3
        · exact Or.inl h3
        · exact Or.inr (List.mem_cons_of_mem q h3)

theorem countInv_applyOp {ma w : Nat} (hma : 1 ≤ ma) {m : RLMap}
    (hinv : countInv ma m) (op : RLOp) : countInv ma (applyOp ma w m op) := by
  cases op with
  | rst idf =>
    intro p hp
    exact hinv p (List.Sublist.mem hp (List.eraseP_sublist m))
  | allow idf now =>
    show countInv ma (RateLimiter.isAllowed m idf ma w now).2
    cases hget : mapGet m idf with
    | none =>
      rw [isAllowed_eq_none hget]
      intro p hp
      rcases mem_mapSet hp with h2 | h2
      · rw [h2]
        exact ⟨Nat.le_refl 1, hma⟩
      · exact hinv p h2
    | some e =>
      by_cases h1 : e.resetTime < now
      · rw [isAllowed_eq_expired hget h1]
        intro p hp
        rcases mem_mapSet hp with h2 | h2
        · rw [h2]
          exact ⟨Nat.le_refl 1, hma⟩
        · exact hinv p h2
      · by_cases h2 : e.count ≥ ma
        · rw [isAllowed_eq_deny hget h1 h2]
          exact hinv
        · rw [isAllowed_eq_incr hget h1 (Nat.not_le.mp h2)]
          intro p hp
          rcases mem_mapSet hp with h3 | h3
          · rw [h3]
            exact ⟨Nat.le_add_left 1 e.count, Nat.not_le.mp h2⟩
          · exact hinv p h3

theorem countInv_runOps {ma w : Nat} (hma : 1 ≤ ma) :
    ∀ (ops : List RLOp) (m : RLMap), countInv ma m →
      countInv ma (runOps ma w ops m) := by
  intro ops
  induction ops with
  | nil => intro m h; exact h
  | cons op ops ih =>
    intro m h
    exact ih _ (countInv_applyOp hma h op)

/-- C10: for fixed maxAttempts at least 1 and positive windowMs, after any
sequence of isAllowed and reset calls starting from the empty map, every
entry in the map has a count between 1 and maxAttempts. -/
theorem rateLimiter_count_invariant (ma w : Nat) (hma : 1 ≤ ma) (hw : 0 < w)
    (ops : List RLOp) : countInv ma (runOps ma w ops []) := by
  have h0 : countInv ma ([] : RLMap) := by
    intro p hp
    exact absurd hp (List.not_mem_nil p)
  exact countInv_runOps hma ops [] h0

/-- C10 witness: the invariant after a concrete call sequence, through the
theorem. -/
theorem rateLimiter_count_invariant_witness :
    countInv 2 (runOps 2 1000
      [.allow "u" 0, .allow "u" 1, .allow "u" 2, .rst "v", .allow "v" 3] []) :=
  rateLimiter_count_invariant 2 1000 (by decide) (by decide)
    [.allow "u" 0, .allow "u" 1, .allow "u" 2, .rst "v", .allow "v" 3]

/-- C4 witness: the separator-freeness applied at a concrete slashed input,
through the theorem. -/
theorem sanitizeFileName_no_separator_witness :
    Char.ofNat 47 ∉ (sanitizeFileName (.jsStr "a/b")).data :=
  sanitizeFileName_no_separator.1 (.jsStr "a/b") (Char.ofNat 47) (by decide)
